import Mathlib

/-!
Verification of the spell-resolution and action logic of a 2D tile-based
roguelike game (`src/magic.py`, `source/actions.py`).

The game state relevant to the spells is modelled as a map from tile
coordinates to the (at most one) actor occupying that tile; spells are pure
functions from a player tile selection and such a map to a new map, a list of
emitted game messages, and a success flag.  The tile-selection menu is
modelled by its result: an `Option (Int × Int)` input (`none` = the player
cancelled with the escape key).

The map-query layer (`map.tiles_in_line`, `map.tiles_in_radius`,
`map.creature_at_coords`), the creature methods `take_damage` and `heal`, and
the `AiConfuse` component are not part of the given sources (only their
callers in `magic.py` are); they are modelled from the spec, as marked by
their doc comments.
-/

/-- The creature component of an actor: display name for messages, current
and maximum health. -/
structure Creature where
  personal_name : String
  current_hp : Int
  max_hp : Int
deriving DecidableEq, Repr

/-- An AI behavior component.  `basic id` stands for any of the game's
ordinary AI behaviors (identified abstractly); `aiConfuse` is the confusion
wrapper of `cast_confusion`, storing the wrapped original behavior and the
number of remaining confused turns. -/
inductive Ai where
  | basic (id : Nat) : Ai
  | aiConfuse (original_ai : Ai) (num_turns : Nat) : Ai
deriving DecidableEq, Repr

/-- An actor: display name, creature component, AI component. -/
structure Actor where
  display_name : String
  creature : Creature
  ai : Ai
deriving DecidableEq, Repr

/-- Modelled from the spec: the "creature-lookup-by-coordinate mechanism".
The game state is the assignment of at most one creature-bearing actor to
each tile; `map.creature_at_coords x y` is application at `(x, y)`. -/
abbrev ActorMap := Int × Int → Option Actor

/-- The observable outcome of casting a spell: the updated actors, the game
messages emitted (in order), and the boolean the cast function returns. -/
structure SpellOutcome where
  actors : ActorMap
  messages : List String
  success : Bool

/-- Modelled from the spec: `creature.take_damage` ("damage reduces current
health by the specified amount, clamped at zero"); the method itself is in
the components module, outside the given sources. -/
def take_damage (c : Creature) (damage : Int) : Creature :=
  { c with current_hp := max 0 (c.current_hp - damage) }

/-- Modelled from the spec: `creature.heal` adds `value` to current health;
per the data-model invariant "current health ≤ max health" the result is
clamped at `max_hp`. -/
def heal (c : Creature) (value : Int) : Creature :=
  { c with current_hp := min c.max_hp (c.current_hp + value) }

/-- Apply `take_damage` to the creature component of an actor. -/
def damageActor (damage : Int) (a : Actor) : Actor :=
  { a with creature := take_damage a.creature damage }

/-- Replace the actor at tile `t` (in-place mutation of the looked-up
actor's fields, expressed as a pointwise map update). -/
def updateAt (m : ActorMap) (t : Int × Int) (a : Actor) : ActorMap :=
  fun p => if p = t then some a else m p

/-- The `k`-th point of the discrete line from `a` with total displacement
`(dx, dy)` over `n` steps. -/
def linePoint (a : Int × Int) (dx dy : Int) (n : Nat) (k : Nat) : Int × Int :=
  (a.1 + dx * k / n, a.2 + dy * k / n)

/-- Modelled from the spec: `map.tiles_in_line` computes "the ordered
sequence of tiles between caster and target" (a discrete Bresenham-style
line); the function itself is in the map module, outside the given sources.
It walks `max |dx| |dy|` steps from `a` to `b`, interpolating linearly. -/
def tiles_in_line (a b : Int × Int) : List (Int × Int) :=
  (List.range (max (b.1 - a.1).natAbs (b.2 - a.2).natAbs + 1)).map
    (linePoint a (b.1 - a.1) (b.2 - a.2) (max (b.1 - a.1).natAbs (b.2 - a.2).natAbs))

/-- Modelled from the spec: `map.tiles_in_radius` returns the tiles "within
a radius of the target"; the function itself is in the map module, outside
the given sources.  It enumerates the square block of side `2*radius + 1`
centred on `center`. -/
def tiles_in_radius (center : Int × Int) (radius : Nat) : List (Int × Int) :=
  (List.range ((2 * radius + 1) * (2 * radius + 1))).map fun k =>
    (center.1 - radius + (k / (2 * radius + 1) : Nat),
     center.2 - radius + (k % (2 * radius + 1) : Nat))

/-- The body of `cast_fireball`'s damage loop over the affected tiles:
look up the creature at each tile, apply `take_damage`, and track the
`damaged_something` flag. -/
def fireLoop (damage : Int) : List (Int × Int) → ActorMap → Bool → ActorMap × Bool
  | [], m, damaged => (m, damaged)
  | t :: rest, m, damaged =>
    match m t with
    | some target => fireLoop damage rest (updateAt m t (damageActor damage target)) true
    | none => fireLoop damage rest m damaged

/-- Result of `cast_lightening`'s damage loop: either the early
`return False` taken when the single-tile line holds a creature
(self-target), or normal completion with the `damaged_something` flag. -/
inductive LightResult where
  | selfAbort (m : ActorMap)
  | done (m : ActorMap) (damaged : Bool)

/-- The body of `cast_lightening`'s loop over `enumerate(tiles_affected)`:
damage the creature at each tile except index 0, and return early (with the
self-target warning emitted by the caller) when the whole line is one tile
and a creature stands on it.  `total` is `len(tiles_affected)`. -/
def lightLoop (damage : Int) (total : Nat) :
    List (Int × Int) → Nat → ActorMap → Bool → LightResult
  | [], _, m, damaged => .done m damaged
  | t :: rest, i, m, damaged =>
    match m t with
    | some target =>
      let m' := if i ≠ 0 then updateAt m t (damageActor damage target) else m
      let damaged' := if i ≠ 0 then true else damaged
      if total = 1 then .selfAbort m'
      else lightLoop damage total rest (i + 1) m' damaged'
    | none => lightLoop damage total rest (i + 1) m damaged

/-- `magic.cast_heal`: heal the target if below max hp, otherwise notify
that health is already full and return `False`.  Result: the target's
creature after the cast, the returned boolean, and the emitted messages. -/
def cast_heal (target : Creature) (value : Int) : Creature × Bool × List String :=
  if target.current_hp < target.max_hp then
    (heal target value, true, [])
  else
    (target, false, [target.personal_name ++ " is already at full health!"])

/-- `magic.cast_lightening`: on a selected tile, damage every creature on
the line from the caster to the tile except at index 0; warn and return
`False` on a one-tile line holding a creature; report when nothing was hit.
`selected` is the result of `menu_tile_select` (`none` = cancelled). -/
def cast_lightening (caster : Int × Int) (casterName : String)
    (dmg_and_range : Int × Int) (selected : Option (Int × Int)) (m : ActorMap) :
    SpellOutcome :=
  match selected with
  | none => { actors := m, messages := [], success := false }
  | some sel =>
    let tiles := tiles_in_line caster sel
    match lightLoop dmg_and_range.1 tiles.length tiles 0 m false with
    | .selfAbort m' =>
      { actors := m'
        messages := ["Watch out! Aim away from yourself please."]
        success := false }
    | .done m' damaged =>
      { actors := m'
        messages := (casterName ++ " casts lightening") ::
          (if damaged then [] else ["Nothing was hit, what a waste."])
        success := true }

/-- `magic.cast_fireball`: on a selected tile, damage every creature on a
tile within the spell radius of it; report when nothing was hit. -/
def cast_fireball (casterName : String) (dmg_range_radius : Int × Int × Nat)
    (selected : Option (Int × Int)) (m : ActorMap) : SpellOutcome :=
  match selected with
  | none => { actors := m, messages := [], success := false }
  | some sel =>
    let out := fireLoop dmg_range_radius.1 (tiles_in_radius sel dmg_range_radius.2.2) m false
    { actors := out.1
      messages := (casterName ++ " casts fireball") ::
        (if out.2 then [] else ["Nothing was hit, what a waste."])
      success := true }

/-- `magic.cast_confusion`: on a selected tile holding a creature, replace
its AI with an `AiConfuse` wrapper around the original for `effect_length`
turns. -/
def cast_confusion (casterName : String) (effect_length : Nat)
    (selected : Option (Int × Int)) (m : ActorMap) : SpellOutcome :=
  match selected with
  | none => { actors := m, messages := [], success := false }
  | some t =>
    match m t with
    | some target =>
      { actors := updateAt m t { target with ai := Ai.aiConfuse target.ai effect_length }
        messages := [casterName ++ " casts confusion on " ++ target.display_name,
          target.display_name ++ " is confused for " ++ toString effect_length ++ " turns!"]
        success := true }
    | none => { actors := m, messages := [], success := true }

/-- Modelled from the spec: one `take_turn` of an AI component.  The
confusion wrapper moves randomly "for a fixed number of turns, then restores
the original behavior"; movement itself is irrelevant to the AI state, so a
turn decrements the counter and, when the turns are spent, restores the
wrapped original AI.  Ordinary behaviors keep their state. -/
def ai_take_turn : Ai → Ai
  | .aiConfuse original_ai num_turns =>
    if num_turns ≤ 1 then original_ai else .aiConfuse original_ai (num_turns - 1)
  | .basic id => .basic id

/-- `actions.move_one_tile`, deltas: the direction table assigns `(dx, dy)`
only for the four direction strings; any other string leaves `dx, dy`
unbound and the subsequent use raises an uncaught `UnboundLocalError`,
modelled as `none`. -/
def move_one_tile_delta (direction : String) : Option (Int × Int) :=
  if direction = "up" then some (0, -1)
  else if direction = "down" then some (0, 1)
  else if direction = "left" then some (-1, 0)
  else if direction = "right" then some (1, 0)
  else none

/-- `actions.move_one_tile`: move the player one tile in `direction`;
faults (unbound `dx`/`dy`) propagate as `none`. -/
def move_one_tile (direction : String) (px py : Int) : Option (Int × Int) :=
  (move_one_tile_delta direction).map fun d => (px + d.1, py + d.2)

/-- A sample monster for concrete test worlds. -/
def goblin : Actor :=
  { display_name := "goblin"
    creature := { personal_name := "goblin", current_hp := 7, max_hp := 9 }
    ai := Ai.basic 0 }

/-- A sample world: a hero on the origin tile and a goblin two tiles east. -/
def sampleMap : ActorMap := fun p =>
  if p = (2, 0) then some goblin
  else if p = (0, 0) then
    some { display_name := "hero"
           creature := { personal_name := "hero", current_hp := 20, max_hp := 20 }
           ai := Ai.basic 1 }
  else none

/-- A world whose only creature stands on the origin tile (the caster's). -/
def selfMap : ActorMap := fun p => if p = (0, 0) then some goblin else none

/-- The fireball loop damages exactly the creatures on the (duplicate-free)
tile list, pointwise. -/
theorem fireLoop_fst (damage : Int) (tiles : List (Int × Int)) (m : ActorMap) (b : Bool)
    (hnd : tiles.Nodup) (p : Int × Int) :
    (fireLoop damage tiles m b).1 p =
      if p ∈ tiles then (m p).map (damageActor damage) else m p := by
  induction tiles generalizing m b with
  | nil => simp [fireLoop]
  | cons t rest ih =>
    have hnt : t ∉ rest := (List.nodup_cons.mp hnd).1
    have hnr : rest.Nodup := (List.nodup_cons.mp hnd).2
    cases hm : m t with
    | some target =>
      simp only [fireLoop, hm]
      rw [ih _ _ hnr]
      by_cases hp : p = t
      · subst hp
        simp [hnt, updateAt, hm]
      · by_cases hpr : p ∈ rest <;> simp [updateAt, hp, hpr, List.mem_cons]
    | none =>
      simp only [fireLoop, hm]
      rw [ih _ _ hnr]
      by_cases hp : p = t
      · subst hp
        simp [hnt, hm]
      · simp [hp, List.mem_cons]

/-- The `damaged_something` flag of the fireball loop is set exactly when
some tile of the list holds a creature. -/
theorem fireLoop_snd (damage : Int) (tiles : List (Int × Int)) (m : ActorMap) (b : Bool) :
    (fireLoop damage tiles m b).2 = (b || tiles.any fun t => (m t).isSome) := by
  induction tiles generalizing m b with
  | nil => simp [fireLoop]
  | cons t rest ih =>
    cases hm : m t with
    | some target =>
      simp only [fireLoop, hm]
      rw [ih]
      simp [hm]
    | none =>
      simp only [fireLoop, hm]
      rw [ih]
      simp [hm]

/-- Once past index 0 (and the line is longer than one tile), the lightning
loop behaves exactly like the fireball loop: every tile is damage-checked. -/
theorem lightLoop_eq_fire (damage : Int) (total : Nat) (htot : total ≠ 1)
    (tiles : List (Int × Int)) (i : Nat) (hi : i ≠ 0) (m : ActorMap) (b : Bool) :
    lightLoop damage total tiles i m b =
      .done (fireLoop damage tiles m b).1 (fireLoop damage tiles m b).2 := by
  induction tiles generalizing i m b with
  | nil => rfl
  | cons t rest ih =>
    cases hm : m t with
    | some target =>
      simp only [lightLoop, fireLoop, hm, if_pos hi, if_neg htot]
      exact ih (i + 1) (Nat.succ_ne_zero i) _ _
    | none =>
      simp only [lightLoop, fireLoop, hm]
      exact ih (i + 1) (Nat.succ_ne_zero i) _ _

/-- Starting the lightning loop at index 0 on a line of length ≠ 1 skips the
first tile and then behaves like the fireball loop on the remaining tiles. -/
theorem lightLoop_start (damage : Int) (total : Nat) (htot : total ≠ 1)
    (t : Int × Int) (rest : List (Int × Int)) (m : ActorMap) :
    lightLoop damage total (t :: rest) 0 m false =
      .done (fireLoop damage rest m false).1 (fireLoop damage rest m false).2 := by
  cases hm : m t with
  | some target =>
    simp only [lightLoop, hm, if_neg htot]
    simp only [ne_eq, not_true_eq_false, if_false]
    exact lightLoop_eq_fire damage total htot rest 1 one_ne_zero m false
  | none =>
    simp only [lightLoop, hm]
    exact lightLoop_eq_fire damage total htot rest 1 one_ne_zero m false

/-- The first tile of the computed line is the caster's own tile. -/
theorem tiles_in_line_head (a b : Int × Int) : (tiles_in_line a b).head? = some a := by
  unfold tiles_in_line
  rw [List.head?_map, List.range_succ_eq_map]
  simp [linePoint]

/-- The last tile of the computed line is the selected target tile. -/
theorem tiles_in_line_getLast (a b : Int × Int) :
    (tiles_in_line a b).getLast? = some b := by
  unfold tiles_in_line
  rw [List.range_succ, List.map_append, List.map_singleton, List.getLast?_concat]
  by_cases h0 : max (b.1 - a.1).natAbs (b.2 - a.2).natAbs = 0
  · have h1 : (b.1 - a.1).natAbs = 0 := by omega
    have h2 : (b.2 - a.2).natAbs = 0 := by omega
    rw [Int.natAbs_eq_zero] at h1 h2
    have hb : b = a := by
      rw [Prod.ext_iff]
      constructor <;> omega
    rw [h0, hb]
    unfold linePoint
    simp
  · have hc : ((max (b.1 - a.1).natAbs (b.2 - a.2).natAbs : Nat) : Int) ≠ 0 := by
      exact_mod_cast h0
    unfold linePoint
    rw [Int.mul_ediv_cancel _ hc, Int.mul_ediv_cancel _ hc]
    have hb1 : a.1 + (b.1 - a.1) = b.1 := by omega
    have hb2 : a.2 + (b.2 - a.2) = b.2 := by omega
    rw [hb1, hb2]

/-- The computed line is never empty. -/
theorem tiles_in_line_ne_nil (a b : Int × Int) : tiles_in_line a b ≠ [] := by
  intro h
  have := tiles_in_line_head a b
  rw [h] at this
  simp at this

/-- No tile occurs twice on the computed line (the dominant coordinate is
strictly monotone along it). -/
theorem tiles_in_line_nodup (a b : Int × Int) : (tiles_in_line a b).Nodup := by
  unfold tiles_in_line
  set dxa := b.1 - a.1 with hdxa
  set dya := b.2 - a.2 with hdya
  set N := max dxa.natAbs dya.natAbs with hN
  apply List.Nodup.map_on _ (List.nodup_range _)
  intro k hk k' hk' heq
  by_cases h0 : N = 0
  · rw [List.mem_range, h0] at hk hk'
    omega
  · have hc : ((N : Nat) : Int) ≠ 0 := by exact_mod_cast h0
    unfold linePoint at heq
    have h1 := congrArg Prod.fst heq
    have h2 := congrArg Prod.snd heq
    simp only [add_right_inj] at h1 h2
    have hmax := max_choice dxa.natAbs dya.natAbs
    rw [← hN] at hmax
    rcases hmax with hmx | hmx
    · rcases Int.natAbs_eq dxa with he | he
      · rw [← hmx] at he
        rw [he, Int.mul_ediv_cancel_left _ hc, Int.mul_ediv_cancel_left _ hc] at h1
        exact_mod_cast h1
      · rw [← hmx] at he
        rw [he, show (-((N : Nat) : Int)) * (k : Int) = ((N : Nat) : Int) * (-(k : Int)) from by
              ring,
          show (-((N : Nat) : Int)) * (k' : Int) = ((N : Nat) : Int) * (-(k' : Int)) from by
              ring,
          Int.mul_ediv_cancel_left _ hc, Int.mul_ediv_cancel_left _ hc] at h1
        omega
    · rcases Int.natAbs_eq dya with he | he
      · rw [← hmx] at he
        rw [he, Int.mul_ediv_cancel_left _ hc, Int.mul_ediv_cancel_left _ hc] at h2
        exact_mod_cast h2
      · rw [← hmx] at he
        rw [he, show (-((N : Nat) : Int)) * (k : Int) = ((N : Nat) : Int) * (-(k : Int)) from by
              ring,
          show (-((N : Nat) : Int)) * (k' : Int) = ((N : Nat) : Int) * (-(k' : Int)) from by
              ring,
          Int.mul_ediv_cancel_left _ hc, Int.mul_ediv_cancel_left _ hc] at h2
        omega

/-- No tile occurs twice in the radius block. -/
theorem tiles_in_radius_nodup (c : Int × Int) (r : Nat) : (tiles_in_radius c r).Nodup := by
  unfold tiles_in_radius
  apply List.Nodup.map_on _ (List.nodup_range _)
  intro k hk k' hk' heq
  have h1 := congrArg Prod.fst heq
  have h2 := congrArg Prod.snd heq
  simp only [add_right_inj, Nat.cast_inj] at h1 h2
  have hk1 : k = (2 * r + 1) * (k / (2 * r + 1)) + k % (2 * r + 1) :=
    (Nat.div_add_mod k (2 * r + 1)).symm
  have hk2 : k' = (2 * r + 1) * (k' / (2 * r + 1)) + k' % (2 * r + 1) :=
    (Nat.div_add_mod k' (2 * r + 1)).symm
  rw [h1, h2] at hk1
  exact hk1.trans hk2.symm

/-- Reduction of `cast_lightening` when the computed line is `t0 :: rest`
with `rest` nonempty: the first tile is skipped and the rest are
damage-checked exactly as in the fireball loop. -/
theorem cast_lightening_cons (caster sel : Int × Int) (casterName : String)
    (dr : Int × Int) (m : ActorMap) (t0 : Int × Int) (rest : List (Int × Int))
    (hts : tiles_in_line caster sel = t0 :: rest) (hrest : rest ≠ []) :
    cast_lightening caster casterName dr (some sel) m =
      { actors := (fireLoop dr.1 rest m false).1
        messages := (casterName ++ " casts lightening") ::
          (if (fireLoop dr.1 rest m false).2 then []
           else ["Nothing was hit, what a waste."])
        success := true } := by
  have htot : (t0 :: rest).length ≠ 1 := by
    have : rest.length ≠ 0 := fun h0 => hrest (List.eq_nil_of_length_eq_zero h0)
    simp only [List.length_cons]
    omega
  unfold cast_lightening
  simp only [hts]
  rw [lightLoop_start dr.1 (t0 :: rest).length htot t0 rest m]

/-- Reduction of `cast_lightening` on a one-tile line with no creature on
it: the spell goes off and hits nothing. -/
theorem cast_lightening_single_none (caster sel : Int × Int) (casterName : String)
    (dr : Int × Int) (m : ActorMap) (t : Int × Int)
    (hts : tiles_in_line caster sel = [t]) (hm : m t = none) :
    cast_lightening caster casterName dr (some sel) m =
      { actors := m
        messages := [casterName ++ " casts lightening", "Nothing was hit, what a waste."]
        success := true } := by
  simp [cast_lightening, hts, lightLoop, hm]

/-- Reduction of `cast_lightening` on a one-tile line with a creature on
it: the early self-target return, before the cast announcement. -/
theorem cast_lightening_single_some (caster sel : Int × Int) (casterName : String)
    (dr : Int × Int) (m : ActorMap) (t : Int × Int) (a : Actor)
    (hts : tiles_in_line caster sel = [t]) (hm : m t = some a) :
    cast_lightening caster casterName dr (some sel) m =
      { actors := m
        messages := ["Watch out! Aim away from yourself please."]
        success := false } := by
  simp [cast_lightening, hts, lightLoop, hm]

/-- Reduction of `cast_fireball` on a selected tile. -/
theorem cast_fireball_some (casterName : String) (drr : Int × Int × Nat)
    (sel : Int × Int) (m : ActorMap) :
    cast_fireball casterName drr (some sel) m =
      { actors := (fireLoop drr.1 (tiles_in_radius sel drr.2.2) m false).1
        messages := (casterName ++ " casts fireball") ::
          (if (fireLoop drr.1 (tiles_in_radius sel drr.2.2) m false).2 then []
           else ["Nothing was hit, what a waste."])
        success := true } := rfl

/-- Two strings differ when the first ends in a suffix whose final
character differs from the second's final character. -/
theorem append_ne_of_last_ne (s x y : String) (hx : x.data ≠ [])
    (h : x.data.getLast? ≠ y.data.getLast?) : s ++ x ≠ y := by
  intro hcontra
  apply h
  have hd : (s ++ x).data = y.data := congrArg String.data hcontra
  rw [String.data_append] at hd
  rw [← hd, List.getLast?_append_of_ne_nil _ hx]

/-- The nothing-was-hit message appears in the emitted message list exactly
when no tile of the damage-checked list held a creature. -/
theorem nothing_msg_iff_none (nm : String) (tiles : List (Int × Int)) (m : ActorMap)
    (hne : nm ≠ "Nothing was hit, what a waste.") (flag : Bool)
    (hflag : flag = tiles.any fun t => (m t).isSome) :
    ("Nothing was hit, what a waste." ∈
        nm :: (if flag then [] else ["Nothing was hit, what a waste."]) ↔
      ∀ p ∈ tiles, m p = none) := by
  subst hflag
  cases hany : tiles.any fun t => (m t).isSome with
  | false =>
    rw [if_neg (by simp [hany])]
    rw [List.any_eq_false] at hany
    simp only [List.mem_cons, List.mem_singleton]
    constructor
    · intro _ p hp
      have hnp := hany p hp
      cases hmp : m p with
      | none => rfl
      | some a =>
        rw [hmp] at hnp
        simp at hnp
    · intro _
      simp
  | true =>
    rw [if_pos (by simp [hany])]
    rw [List.any_eq_true] at hany
    obtain ⟨q, hq, hqs⟩ := hany
    simp only [List.mem_singleton]
    constructor
    · intro hmem
      exact absurd hmem.symm hne
    · intro hall
      rw [hall q hq] at hqs
      exact absurd hqs (by simp)

/-- After its stored number of turns, the confusion wrapper hands back the
original AI behavior. -/
theorem ai_confuse_restores (orig : Ai) (n : Nat) (h : 1 ≤ n) :
    ai_take_turn^[n] (Ai.aiConfuse orig n) = orig := by
  induction n with
  | zero => omega
  | succ k ih =>
    rw [Function.iterate_succ_apply]
    by_cases hk : k = 0
    · subst hk
      simp [ai_take_turn]
    · have h1 : ¬(k + 1 ≤ 1) := by omega
      simp only [ai_take_turn, if_neg h1, Nat.add_sub_cancel]
      exact ih (by omega)

/-- C1: for every successful cast of `cast_lightening` whose computed line
has more than one tile, every creature on a tile of the line other than the
first takes exactly the spell's damage, and the creature on the first tile
(the caster's own tile) is never damaged. -/
theorem lightening_damages_line_except_caster (caster sel : Int × Int)
    (casterName : String) (dr : Int × Int) (m : ActorMap)
    (h : 1 < (tiles_in_line caster sel).length) :
    (∀ p ∈ (tiles_in_line caster sel).tail,
        (cast_lightening caster casterName dr (some sel) m).actors p
          = (m p).map (damageActor dr.1))
    ∧ (cast_lightening caster casterName dr (some sel) m).actors caster = m caster
    ∧ (cast_lightening caster casterName dr (some sel) m).success = true := by
  obtain ⟨t0, rest, hts⟩ : ∃ t0 rest, tiles_in_line caster sel = t0 :: rest := by
    cases hls : tiles_in_line caster sel with
    | nil => exact absurd hls (tiles_in_line_ne_nil caster sel)
    | cons x xs => exact ⟨x, xs, rfl⟩
  have hrest : rest ≠ [] := by
    intro hr
    rw [hr] at hts
    rw [hts] at h
    simp at h
  have hnd := tiles_in_line_nodup caster sel
  rw [hts] at hnd
  have ht0 : t0 = caster := by
    have hhd := tiles_in_line_head caster sel
    rw [hts] at hhd
    simpa using hhd
  rw [cast_lightening_cons caster sel casterName dr m t0 rest hts hrest]
  refine ⟨?_, ?_, rfl⟩
  · intro p hp
    rw [hts] at hp
    simp only [List.tail_cons] at hp
    show (fireLoop dr.1 rest m false).1 p = (m p).map (damageActor dr.1)
    rw [fireLoop_fst dr.1 rest m false (List.nodup_cons.mp hnd).2 p, if_pos hp]
  · show (fireLoop dr.1 rest m false).1 caster = m caster
    rw [fireLoop_fst dr.1 rest m false (List.nodup_cons.mp hnd).2 caster, if_neg]
    intro hcr
    exact (List.nodup_cons.mp hnd).1 (by rw [ht0]; exact hcr)

/-- Witness for C1: casting east from the origin, the goblin two tiles east
takes the damage while the caster's own tile is untouched. -/
theorem lightening_damages_line_except_caster_witness :
    (cast_lightening (0, 0) "hero" (4, 5) (some (2, 0)) sampleMap).actors (2, 0)
        = (sampleMap (2, 0)).map (damageActor 4)
    ∧ (cast_lightening (0, 0) "hero" (4, 5) (some (2, 0)) sampleMap).actors (0, 0)
        = sampleMap (0, 0) :=
  ⟨(lightening_damages_line_except_caster (0, 0) (2, 0) "hero" (4, 5) sampleMap
      (by decide)).1 (2, 0) (by decide),
   (lightening_damages_line_except_caster (0, 0) (2, 0) "hero" (4, 5) sampleMap
      (by decide)).2.1⟩

/-- C2: the computed line runs from the caster position to the selected
target tile, with the caster's own tile as its first element (which is what
makes skipping index 0 equivalent to skipping the caster's tile). -/
theorem tiles_in_line_endpoints (a b : Int × Int) :
    (tiles_in_line a b).head? = some a ∧ (tiles_in_line a b).getLast? = some b :=
  ⟨tiles_in_line_head a b, tiles_in_line_getLast a b⟩

/-- C3: for every successful cast of `cast_fireball`, every creature on any
tile within the spell radius of the selected tile takes exactly the spell's
damage; no tile is skipped (in particular the caster's own tile is
damage-checked like any other). -/
theorem fireball_damages_radius (casterName : String) (drr : Int × Int × Nat)
    (sel : Int × Int) (m : ActorMap) (p : Int × Int)
    (hp : p ∈ tiles_in_radius sel drr.2.2) :
    (cast_fireball casterName drr (some sel) m).actors p
      = (m p).map (damageActor drr.1)
    ∧ (cast_fireball casterName drr (some sel) m).success = true := by
  rw [cast_fireball_some]
  refine ⟨?_, rfl⟩
  show (fireLoop drr.1 (tiles_in_radius sel drr.2.2) m false).1 p
      = (m p).map (damageActor drr.1)
  rw [fireLoop_fst drr.1 _ m false (tiles_in_radius_nodup sel drr.2.2) p, if_pos hp]

/-- Witness for C3: a fireball on the tile east of the caster damages the
creature on the caster's own tile, which lies within the radius. -/
theorem fireball_damages_radius_witness :
    (cast_fireball "hero" (4, 5, 1) (some (1, 0)) sampleMap).actors (0, 0)
      = (sampleMap (0, 0)).map (damageActor 4) :=
  (fireball_damages_radius "hero" (4, 5, 1) (1, 0) sampleMap (0, 0) (by decide)).1

/-- C4 fails as stated: in the self-target early return of
`cast_lightening` (one-tile line with a creature on it) no creature is
damaged, yet the nothing-was-hit message is not emitted — only the warning
is. -/
theorem nothing_hit_message_cex :
    (cast_lightening (0, 0) "hero" (4, 5) (some (0, 0)) selfMap).actors = selfMap
    ∧ (selfMap (0, 0)).isSome = true
    ∧ "Nothing was hit, what a waste." ∉
        (cast_lightening (0, 0) "hero" (4, 5) (some (0, 0)) selfMap).messages := by
  refine ⟨rfl, rfl, ?_⟩
  rw [show (cast_lightening ((0 : Int), (0 : Int)) "hero" (4, 5) (some (0, 0))
        selfMap).messages = ["Watch out! Aim away from yourself please."] from rfl]
  decide

/-- C4 (amended): whenever the spell actually goes off (the cast returns
True), the message "Nothing was hit, what a waste." is emitted iff no
creature was damaged by the cast; in the self-target early return of
`cast_lightening` the cast returns False and only the warning is emitted. -/
theorem nothing_hit_message_iff (caster sel : Int × Int) (casterName : String)
    (dr : Int × Int) (drr : Int × Int × Nat) (m : ActorMap) :
    ((cast_lightening caster casterName dr (some sel) m).success = true →
      ("Nothing was hit, what a waste." ∈
          (cast_lightening caster casterName dr (some sel) m).messages ↔
        ∀ p ∈ (tiles_in_line caster sel).tail, m p = none))
    ∧ ("Nothing was hit, what a waste." ∈
          (cast_fireball casterName drr (some sel) m).messages ↔
        ∀ p ∈ tiles_in_radius sel drr.2.2, m p = none) := by
  constructor
  · intro hsucc
    obtain ⟨t0, rest, hts⟩ : ∃ t0 rest, tiles_in_line caster sel = t0 :: rest := by
      cases hls : tiles_in_line caster sel with
      | nil => exact absurd hls (tiles_in_line_ne_nil caster sel)
      | cons x xs => exact ⟨x, xs, rfl⟩
    cases rest with
    | nil =>
      cases hm : m t0 with
      | some a =>
        rw [cast_lightening_single_some caster sel casterName dr m t0 a hts hm] at hsucc
        simp at hsucc
      | none =>
        rw [cast_lightening_single_none caster sel casterName dr m t0 hts hm, hts]
        simp
    | cons r1 rs =>
      rw [cast_lightening_cons caster sel casterName dr m t0 (r1 :: rs) hts (by simp),
        hts]
      simp only [List.tail_cons]
      exact nothing_msg_iff_none (casterName ++ " casts lightening") (r1 :: rs) m
        (append_ne_of_last_ne casterName _ _ (by decide) (by decide))
        (fireLoop dr.1 (r1 :: rs) m false).2
        (by rw [fireLoop_snd]; simp)
  · rw [cast_fireball_some]
    exact nothing_msg_iff_none (casterName ++ " casts fireball")
      (tiles_in_radius sel drr.2.2) m
      (append_ne_of_last_ne casterName _ _ (by decide) (by decide))
      (fireLoop drr.1 (tiles_in_radius sel drr.2.2) m false).2
      (by rw [fireLoop_snd]; simp)

/-- Witness for the amended C4 at concrete casts of both spells. -/
theorem nothing_hit_message_iff_witness :
    (("Nothing was hit, what a waste." ∈
        (cast_lightening (0, 0) "hero" (4, 5) (some (2, 0)) sampleMap).messages) ↔
      ∀ p ∈ (tiles_in_line (0, 0) (2, 0)).tail, sampleMap p = none)
    ∧ (("Nothing was hit, what a waste." ∈
        (cast_fireball "hero" (4, 5, 1) (some (1, 0)) sampleMap).messages) ↔
      ∀ p ∈ tiles_in_radius (1, 0) 1, sampleMap p = none) :=
  ⟨(nothing_hit_message_iff (0, 0) (2, 0) "hero" (4, 5) (4, 5, 1) sampleMap).1
      (by decide),
   (nothing_hit_message_iff (0, 0) (1, 0) "hero" (4, 5) (4, 5, 1) sampleMap).2⟩

/-- C5: a successful confusion cast on an occupied tile replaces the
target's ai with an `AiConfuse` wrapper storing the original ai and
`num_turns = effect_length`, and after that fixed number of turns the
original ai behavior is restored. -/
theorem confusion_wraps_and_restores_ai (casterName : String) (effect_length : Nat)
    (t : Int × Int) (m : ActorMap) (target : Actor)
    (hm : m t = some target) (hpos : 1 ≤ effect_length) :
    (cast_confusion casterName effect_length (some t) m).actors t
        = some { target with ai := Ai.aiConfuse target.ai effect_length }
    ∧ ai_take_turn^[effect_length] (Ai.aiConfuse target.ai effect_length) = target.ai
    ∧ (cast_confusion casterName effect_length (some t) m).success = true := by
  have hred : cast_confusion casterName effect_length (some t) m =
      { actors := updateAt m t { target with ai := Ai.aiConfuse target.ai effect_length }
        messages := [casterName ++ " casts confusion on " ++ target.display_name,
          target.display_name ++ " is confused for " ++ toString effect_length
            ++ " turns!"]
        success := true } := by
    simp [cast_confusion, hm]
  rw [hred]
  refine ⟨?_, ai_confuse_restores target.ai effect_length hpos, rfl⟩
  show updateAt m t { target with ai := Ai.aiConfuse target.ai effect_length } t
      = some { target with ai := Ai.aiConfuse target.ai effect_length }
  unfold updateAt
  rw [if_pos rfl]

/-- Witness for C5: confusing the goblin for five turns wraps its ai, and
five turns later the wrapper hands the original ai back. -/
theorem confusion_wraps_and_restores_ai_witness :
    (cast_confusion "hero" 5 (some (2, 0)) sampleMap).actors (2, 0)
        = some { goblin with ai := Ai.aiConfuse goblin.ai 5 }
    ∧ ai_take_turn^[5] (Ai.aiConfuse goblin.ai 5) = goblin.ai
    ∧ (cast_confusion "hero" 5 (some (2, 0)) sampleMap).success = true :=
  confusion_wraps_and_restores_ai "hero" 5 (2, 0) sampleMap goblin (by decide)
    (by decide)

/-- C6: `take_damage` reduces current health by exactly the given amount,
clamped at zero, and changes nothing else about the creature. -/
theorem take_damage_clamps_at_zero (c : Creature) (damage : Int) :
    (take_damage c damage).current_hp = max 0 (c.current_hp - damage)
    ∧ (take_damage c damage).max_hp = c.max_hp
    ∧ (take_damage c damage).personal_name = c.personal_name :=
  ⟨rfl, rfl, rfl⟩

/-- C7: `cast_heal` preserves `current_hp ≤ max_hp`: at full health it
returns False, leaves the creature unchanged and emits the already-full
message; below full health it heals, returns True, and the result still
does not exceed `max_hp`. -/
theorem cast_heal_preserves_invariant (t : Creature) (v : Int)
    (h : t.current_hp ≤ t.max_hp) :
    (cast_heal t v).1.current_hp ≤ t.max_hp
    ∧ (cast_heal t v).1.max_hp = t.max_hp
    ∧ (t.current_hp = t.max_hp →
        cast_heal t v = (t, false, [t.personal_name ++ " is already at full health!"]))
    ∧ (t.current_hp < t.max_hp →
        (cast_heal t v).2.1 = true
          ∧ (cast_heal t v).1.current_hp = min t.max_hp (t.current_hp + v)) := by
  unfold cast_heal
  by_cases hlt : t.current_hp < t.max_hp
  · rw [if_pos hlt]
    exact ⟨min_le_left _ _, rfl, fun he => absurd he (by omega), fun _ => ⟨rfl, rfl⟩⟩
  · rw [if_neg hlt]
    exact ⟨h, rfl, fun _ => rfl, fun h2 => absurd h2 hlt⟩

/-- Witness for C7 at a concrete creature below full health. -/
theorem cast_heal_preserves_invariant_witness :
    (cast_heal ⟨"hero", 5, 10⟩ 20).1.current_hp ≤ 10
    ∧ (cast_heal ⟨"hero", 5, 10⟩ 20).1.max_hp = 10
    ∧ ((5 : Int) = 10 →
        cast_heal ⟨"hero", 5, 10⟩ 20
          = (⟨"hero", 5, 10⟩, false,
             [(⟨"hero", 5, 10⟩ : Creature).personal_name
                ++ " is already at full health!"]))
    ∧ ((5 : Int) < 10 →
        (cast_heal ⟨"hero", 5, 10⟩ 20).2.1 = true
          ∧ (cast_heal ⟨"hero", 5, 10⟩ 20).1.current_hp = min 10 (5 + 20)) :=
  cast_heal_preserves_invariant ⟨"hero", 5, 10⟩ 20 (by decide)

/-- C8: `move_one_tile` faults (modelled as `none`, the uncaught
`UnboundLocalError` on the never-assigned `dx`/`dy`) exactly on direction
strings other than the four recognised ones; on those it is no error and no
no-op. -/
theorem move_one_tile_fault (direction : String) (px py : Int) :
    move_one_tile direction px py = none ↔
      ¬(direction = "up" ∨ direction = "down" ∨ direction = "left"
        ∨ direction = "right") := by
  unfold move_one_tile move_one_tile_delta
  by_cases h1 : direction = "up" <;> by_cases h2 : direction = "down" <;>
    by_cases h3 : direction = "left" <;> by_cases h4 : direction = "right" <;>
    simp [h1, h2, h3, h4]

/-- C9: cancelling tile selection (no tile chosen) makes all three targeted
spells return False with the game state unchanged and no message emitted. -/
theorem cancel_is_noop (caster : Int × Int) (casterName : String) (dr : Int × Int)
    (drr : Int × Int × Nat) (effect_length : Nat) (m : ActorMap) :
    cast_lightening caster casterName dr none m
        = { actors := m, messages := [], success := false }
    ∧ cast_fireball casterName drr none m
        = { actors := m, messages := [], success := false }
    ∧ cast_confusion casterName effect_length none m
        = { actors := m, messages := [], success := false } :=
  ⟨rfl, rfl, rfl⟩

/-- C10: when the computed line is a single tile occupied by a creature,
`cast_lightening` returns False, damages nothing, and emits only the
self-target warning — neither the cast announcement nor the nothing-was-hit
message. -/
theorem lightening_self_target (caster sel t : Int × Int) (casterName : String)
    (dr : Int × Int) (m : ActorMap)
    (hts : tiles_in_line caster sel = [t]) (hc : (m t).isSome = true) :
    cast_lightening caster casterName dr (some sel) m =
      { actors := m
        messages := ["Watch out! Aim away from yourself please."]
        success := false } := by
  obtain ⟨a, ha⟩ := Option.isSome_iff_exists.mp hc
  exact cast_lightening_single_some caster sel casterName dr m t a hts ha

/-- Witness for C10: targeting the caster's own occupied tile. -/
theorem lightening_self_target_witness :
    cast_lightening (0, 0) "hero" (4, 5) (some (0, 0)) selfMap =
      { actors := selfMap
        messages := ["Watch out! Aim away from yourself please."]
        success := false } :=
  lightening_self_target (0, 0) (0, 0) (0, 0) "hero" (4, 5) selfMap (by decide)
    (by decide)
